import Mathlib

/-!
Shallow embedding of the `razr` schema-validation core
(`src/packages/schema/mod.ts`) and proofs about it.

JavaScript runtime values are modelled by the inductive `JSValue`: the
null value, `undefined`, strings, numbers (with NaN and the two signed
infinities as distinct non-finite numbers and finite doubles abstracted
as rationals), booleans, arrays, and objects.  An object carries a tag
describing its prototype: `protoNull` (created with a null prototype),
`protoObject` (the base `Object.prototype`), or `protoOther` (class
instances and other exotic objects).  Property access `input[key]`
on a plain data object is modelled by `getField`, returning `undefined`
for an absent key.

Every definition below the value model is a direct transcription of the
corresponding function of `mod.ts`, with the anonymous `safeParse`
closures given names (`stringCheck`, `arrayCheck`, ...) so that lemmas
can refer to them.  The single exception is `literal`, which the
repository's test suite imports but whose defining code is not in the
sources; it is modelled from the specification (see its doc comment).
-/

namespace Razr

/-- A JavaScript number: either a finite double (abstracted as an exact
rational) or one of the three non-finite values NaN, +Infinity,
-Infinity. -/
inductive JSNum : Type where
  | finite (q : Rat)
  | nan
  | posInf
  | negInf
deriving DecidableEq

/-- `Number.isFinite`: true exactly on finite numbers. -/
def jsIsFinite : JSNum → Bool
  | .finite _ => true
  | .nan => false
  | .posInf => false
  | .negInf => false

/-- Strict equality `===` restricted to numbers: NaN compares unequal to
everything (itself included); all other numbers compare by value. -/
def jsNumEq : JSNum → JSNum → Bool
  | .finite a, .finite b => a == b
  | .posInf, .posInf => true
  | .negInf, .negInf => true
  | _, _ => false

/-- Prototype tag of a JavaScript object, as far as `isObject` can
distinguish it: a null prototype, the base `Object.prototype`, or
anything else (class instances, arrays are a separate constructor). -/
inductive Proto : Type where
  | protoNull
  | protoObject
  | protoOther
deriving DecidableEq

/-- A JavaScript runtime value. -/
inductive JSValue : Type where
  | vNull
  | vUndefined
  | vStr (s : String)
  | vNum (n : JSNum)
  | vBool (b : Bool)
  | vArr (elems : List JSValue)
  | vObj (proto : Proto) (fields : List (String × JSValue))

/-- One segment of an issue path: a zero-based array index or an object
field name (`PropertyKey` in the source). -/
inductive PathKey : Type where
  | idx (i : Nat)
  | key (s : String)
deriving DecidableEq

/-- A validation issue: a message and an optional path (the `path`
property is absent on issues raised at the root). -/
structure Issue : Type where
  message : String
  path : Option (List PathKey)
deriving DecidableEq

/-- The result of a validation: `{ value }` on success or `{ issues }`
on failure (the discriminated `StandardSchemaV1.Result` union). -/
inductive Result (α : Type) : Type where
  | ok (value : α)
  | err (issues : List Issue)
deriving DecidableEq

/-- `SchemaError`: the throwable carrying the issue list. -/
structure SchemaError : Type where
  issues : List Issue
deriving DecidableEq

/-- The `"~standard"` interop marker built by `createSchema`. -/
structure StandardProps : Type where
  validate : JSValue → Result JSValue
  vendor : String
  version : Nat

/-- A schema object as returned by `createSchema`: the throwing `parse`,
the non-throwing `safeParse`, and the `"~standard"` marker.  A thrown
`SchemaError` is modelled by the `Except.error` branch of `parse`. -/
structure Schema : Type where
  parse : JSValue → Except SchemaError JSValue
  safeParse : JSValue → Result JSValue
  standard : StandardProps

/-- `createSchema(safeParse)` from `mod.ts`: derives `parse` (throwing on
issues) and the `"~standard"` marker from the given `safeParse`. -/
def createSchema (safeParse : JSValue → Result JSValue) : Schema where
  parse := fun input =>
    match safeParse input with
    | .err issues => .error { issues := issues }
    | .ok v => .ok v
  safeParse := safeParse
  standard :=
    { validate := fun value => safeParse value
      vendor := "razr"
      version := 1 }

/-- `isObject(input)` from `mod.ts`: false on null/undefined, otherwise
true iff the prototype is null or the base `Object.prototype`.  On
primitives and arrays `Object.getPrototypeOf` yields the corresponding
built-in prototype, which is neither, so they map to false. -/
def isObject : JSValue → Bool
  | .vNull => false
  | .vUndefined => false
  | .vObj proto _ => proto == .protoNull || proto == .protoObject
  | .vStr _ => false
  | .vNum _ => false
  | .vBool _ => false
  | .vArr _ => false

/-- `prependKeyToIssues(key, issues)`: copies each issue, setting its
path to `[key, ...path]` when a path is present and `[key]` otherwise. -/
def prependKeyToIssues (key : PathKey) (issues : List Issue) : List Issue :=
  issues.map fun issue =>
    { issue with
      path :=
        match issue.path with
        | some p => some (key :: p)
        | none => some [key] }

/-- Body of `string(message)`'s `safeParse`: succeed iff
`typeof value === "string"`, returning the input. -/
def stringCheck (message : String) (value : JSValue) : Result JSValue :=
  match value with
  | .vStr s => .ok (.vStr s)
  | _ => .err [{ message := message, path := none }]

/-- `string(message)` (default message `"Expected string"`). -/
def string (message : String) : Schema :=
  createSchema (stringCheck message)

/-- Body of `number(message)`'s `safeParse`: succeed iff
`typeof value === "number" && Number.isFinite(value)`. -/
def numberCheck (message : String) (value : JSValue) : Result JSValue :=
  match value with
  | .vNum n =>
    if jsIsFinite n then .ok (.vNum n)
    else .err [{ message := message, path := none }]
  | _ => .err [{ message := message, path := none }]

/-- `number(message)` (default message `"Expected number"`). -/
def number (message : String) : Schema :=
  createSchema (numberCheck message)

/-- Body of `boolean(message)`'s `safeParse`: succeed iff
`typeof value === "boolean"`. -/
def booleanCheck (message : String) (value : JSValue) : Result JSValue :=
  match value with
  | .vBool b => .ok (.vBool b)
  | _ => .err [{ message := message, path := none }]

/-- `boolean(message)` (default message `"Expected boolean"`). -/
def boolean (message : String) : Schema :=
  createSchema (booleanCheck message)

/-- The element loop of `array(schema)`'s `safeParse`: starting at index
`i`, validate each element in order; on the first child failure return
that child's issues with the element's index prepended; on success
collect the validated values in order. -/
def arrayGo (s : Schema) (i : Nat) : List JSValue → Result (List JSValue)
  | [] => .ok []
  | x :: xs =>
    match s.safeParse x with
    | .err issues => .err (prependKeyToIssues (.idx i) issues)
    | .ok v =>
      match arrayGo s (i + 1) xs with
      | .err issues => .err issues
      | .ok vs => .ok (v :: vs)

/-- Body of `array(schema, message)`'s `safeParse`: reject non-arrays
with one path-less issue, otherwise run the element loop and wrap the
collected values in a fresh array. -/
def arrayCheck (s : Schema) (message : String) (input : JSValue) : Result JSValue :=
  match input with
  | .vArr elems =>
    match arrayGo s 0 elems with
    | .err issues => .err issues
    | .ok vs => .ok (.vArr vs)
  | _ => .err [{ message := message, path := none }]

/-- `array(schema, message)` (default message `"Expected array"`). -/
def array (s : Schema) (message : String) : Schema :=
  createSchema (arrayCheck s message)

/-- Property access `input[key]` on a plain data object: the first field
with that name, or `undefined` when absent. -/
def getField (fields : List (String × JSValue)) (key : String) : JSValue :=
  match fields.find? (fun p => p.1 == key) with
  | some p => p.2
  | none => .vUndefined

/-- Own fields of an object value (`[]` on non-objects; only reached
behind the `isObject` guard). -/
def objFields : JSValue → List (String × JSValue)
  | .vObj _ fields => fields
  | _ => []

/-- The field loop of `object(shape)`'s `safeParse`
(`for (const key in shape)` in shape-definition order): validate each
declared field against `input[key]`; on the first child failure return
that child's issues with the field name prepended; on success collect
the validated fields in declaration order. -/
def objectGo : List (String × Schema) → List (String × JSValue) → Result (List (String × JSValue))
  | [], _ => .ok []
  | (key, s) :: rest, fields =>
    match s.safeParse (getField fields key) with
    | .err issues => .err (prependKeyToIssues (.key key) issues)
    | .ok v =>
      match objectGo rest fields with
      | .err issues => .err issues
      | .ok entries => .ok ((key, v) :: entries)

/-- Body of `object(shape, message)`'s `safeParse`: reject non-plain
objects with one path-less issue, otherwise run the field loop and wrap
the collected fields in a record created with `Object.create(null)`,
i.e. a null-prototype object. -/
def objectCheck (shape : List (String × Schema)) (message : String)
    (input : JSValue) : Result JSValue :=
  if isObject input then
    match objectGo shape (objFields input) with
    | .err issues => .err issues
    | .ok entries => .ok (.vObj .protoNull entries)
  else .err [{ message := message, path := none }]

/-- `object(shape, message)` (default message `"Expected object"`).  The
source additionally spreads the `shape` onto the returned schema for
introspection; no claim concerns that field, so only the schema part is
modelled. -/
def object (shape : List (String × Schema)) (message : String) : Schema :=
  createSchema (objectCheck shape message)

/-- Body of `maybe(schema)`'s `safeParse`: null and undefined map to
success with `undefined`; everything else delegates to the child. -/
def maybeCheck (s : Schema) (value : JSValue) : Result JSValue :=
  match value with
  | .vNull => .ok .vUndefined
  | .vUndefined => .ok .vUndefined
  | v => s.safeParse v

/-- `maybe(schema)`. -/
def maybe (s : Schema) : Schema :=
  createSchema (maybeCheck s)

/-- Body of `defaulted(schema, defaultValue)`'s `safeParse`: null and
undefined map to success with the default value; everything else
delegates to the child. -/
def defaultedCheck (s : Schema) (defaultValue : JSValue) (value : JSValue) : Result JSValue :=
  match value with
  | .vNull => .ok defaultValue
  | .vUndefined => .ok defaultValue
  | v => s.safeParse v

/-- `defaulted(schema, defaultValue)`. -/
def defaulted (s : Schema) (defaultValue : JSValue) : Schema :=
  createSchema (defaultedCheck s defaultValue)

/-- Strict equality `===` on the values a literal target can be compared
against.  NaN is unequal to itself; values of different runtime kinds
are unequal; objects and arrays compare by reference, which the model
conservatively renders as unequal (never exercised: literal targets are
primitives or null). -/
def strictEq : JSValue → JSValue → Bool
  | .vNull, .vNull => true
  | .vUndefined, .vUndefined => true
  | .vStr a, .vStr b => a == b
  | .vNum a, .vNum b => jsNumEq a b
  | .vBool a, .vBool b => a == b
  | _, _ => false

/-- True on the values the spec admits as literal targets: text,
numeric, boolean, and the null value. -/
def isLitTarget : JSValue → Bool
  | .vStr _ => true
  | .vNum _ => true
  | .vBool _ => true
  | .vNull => true
  | _ => false

/-- Modelled from the spec: the defining code of `literal` is not in the
sources (only the test suite imports it).  Per §4.2, `literal(value,
message)` "succeeds iff input is strictly equal to `value`", producing
"a single-issue failure list with no path" otherwise, and like the other
primitives returns the input unchanged on success. -/
def literalCheck (value : JSValue) (message : String) (input : JSValue) : Result JSValue :=
  if strictEq input value then .ok input
  else .err [{ message := message, path := none }]

/-- Modelled from the spec: `literal(value, message)`, built on
`createSchema` like every other constructor of the construction API. -/
def literal (value : JSValue) (message : String) : Schema :=
  createSchema (literalCheck value message)

mutual

/-- The grammar of schemas buildable from the construction API:
`string`, `number`, `boolean`, `literal`, `array`, `object`, `maybe`,
`defaulted`, nested arbitrarily. -/
inductive SchemaExpr : Type where
  | strE (message : String)
  | numE (message : String)
  | boolE (message : String)
  | litE (value : JSValue) (message : String)
  | arrE (elem : SchemaExpr) (message : String)
  | objE (shape : ShapeExpr) (message : String)
  | maybeE (child : SchemaExpr)
  | defaultedE (child : SchemaExpr) (defaultValue : JSValue)

/-- A shape literal passed to `object`: field names with their schema
expressions, in shape-definition order. -/
inductive ShapeExpr : Type where
  | nilS
  | consS (key : String) (e : SchemaExpr) (rest : ShapeExpr)

end

mutual

/-- Interpretation of a schema expression as the schema the API builds. -/
def denote : SchemaExpr → Schema
  | .strE m => string m
  | .numE m => number m
  | .boolE m => boolean m
  | .litE v m => literal v m
  | .arrE e m => array (denote e) m
  | .objE sh m => object (denoteShape sh) m
  | .maybeE e => maybe (denote e)
  | .defaultedE e d => defaulted (denote e) d

/-- Interpretation of a shape expression as a list of named schemas. -/
def denoteShape : ShapeExpr → List (String × Schema)
  | .nilS => []
  | .consS k e rest => (k, denote e) :: denoteShape rest

end

/-! ### Basic lemmas about `createSchema` and the issue machinery -/

theorem createSchema_safeParse (f : JSValue → Result JSValue) (input : JSValue) :
    (createSchema f).safeParse input = f input := rfl

theorem createSchema_parse (f : JSValue → Result JSValue) (input : JSValue) :
    (createSchema f).parse input =
      match f input with
      | .err issues => .error { issues := issues }
      | .ok v => .ok v := rfl

theorem prependKeyToIssues_ne_nil (k : PathKey) (issues : List Issue)
    (h : issues ≠ []) : prependKeyToIssues k issues ≠ [] := by
  simpa [prependKeyToIssues] using h

theorem prependKeyToIssues_path (k : PathKey) (issues : List Issue) :
    ∀ issue ∈ prependKeyToIssues k issues, ∃ p, issue.path = some p := by
  intro issue hmem
  simp only [prependKeyToIssues, List.mem_map] at hmem
  obtain ⟨base, _, heq⟩ := hmem
  cases hp : base.path with
  | some p => exact ⟨k :: p, by rw [← heq]; simp [hp]⟩
  | none => exact ⟨[k], by rw [← heq]; simp [hp]⟩

/-! ### First-failure and success lemmas for the `array` element loop -/

theorem arrayGo_append_err (s : Schema) (x : JSValue) (issues : List Issue)
    (hx : s.safeParse x = .err issues) :
    ∀ (pre : List JSValue) (i : Nat),
      (∀ y ∈ pre, ∃ v, s.safeParse y = .ok v) →
      ∀ rest : List JSValue,
        arrayGo s i (pre ++ x :: rest) =
          .err (prependKeyToIssues (.idx (i + pre.length)) issues)
  | [], i, _, rest => by simp [arrayGo, hx]
  | y :: pre, i, hpre, rest => by
    obtain ⟨v, hv⟩ := hpre y (by simp)
    have ih := arrayGo_append_err s x issues hx pre (i + 1)
      (fun z hz => hpre z (by simp [hz])) rest
    have harith : i + 1 + pre.length = i + (pre.length + 1) := by omega
    rw [harith] at ih
    rw [List.cons_append, arrayGo, hv, ih]
    simp

theorem arrayGo_ok (s : Schema) :
    ∀ (elems : List JSValue) (i : Nat),
      (∀ y ∈ elems, ∃ v, s.safeParse y = .ok v) →
      ∃ vs, arrayGo s i elems = .ok vs ∧
        List.Forall₂ (fun x v => s.safeParse x = .ok v) elems vs
  | [], i, _ => ⟨[], rfl, List.Forall₂.nil⟩
  | x :: xs, i, hall => by
    obtain ⟨v, hv⟩ := hall x (by simp)
    obtain ⟨vs, hgo, hfa⟩ := arrayGo_ok s xs (i + 1)
      (fun z hz => hall z (by simp [hz]))
    exact ⟨v :: vs, by simp [arrayGo, hv, hgo], List.Forall₂.cons hv hfa⟩

theorem arrayGo_err_ne_nil (s : Schema)
    (hs : ∀ inp iss, s.safeParse inp = .err iss → iss ≠ []) :
    ∀ (elems : List JSValue) (i : Nat) (iss : List Issue),
      arrayGo s i elems = .err iss → iss ≠ []
  | [], i, iss, h => by simp [arrayGo] at h
  | x :: xs, i, iss, h => by
    cases hx : s.safeParse x with
    | err childIss =>
      rw [arrayGo, hx] at h
      cases h
      exact prependKeyToIssues_ne_nil _ _ (hs x childIss hx)
    | ok v =>
      rw [arrayGo, hx] at h
      cases hgo : arrayGo s (i + 1) xs with
      | err iss2 =>
        rw [hgo] at h
        cases h
        exact arrayGo_err_ne_nil s hs xs (i + 1) iss hgo
      | ok vs => rw [hgo] at h; cases h

/-! ### First-failure and success lemmas for the `object` field loop -/

theorem objectGo_append_err (fields : List (String × JSValue)) (k : String)
    (s : Schema) (issues : List Issue)
    (hk : s.safeParse (getField fields k) = .err issues) :
    ∀ pre : List (String × Schema),
      (∀ p ∈ pre, ∃ v, p.2.safeParse (getField fields p.1) = .ok v) →
      ∀ rest : List (String × Schema),
        objectGo (pre ++ (k, s) :: rest) fields =
          .err (prependKeyToIssues (.key k) issues)
  | [], _, rest => by simp [objectGo, hk]
  | (k2, s2) :: pre, hpre, rest => by
    obtain ⟨v, hv⟩ := hpre (k2, s2) (by simp)
    have hv2 : s2.safeParse (getField fields k2) = .ok v := hv
    have ih := objectGo_append_err fields k s issues hk pre
      (fun p hp => hpre p (by simp [hp])) rest
    rw [List.cons_append, objectGo, hv2, ih]

theorem objectGo_ok (fields : List (String × JSValue)) :
    ∀ shape : List (String × Schema),
      (∀ p ∈ shape, ∃ v, p.2.safeParse (getField fields p.1) = .ok v) →
      ∃ entries, objectGo shape fields = .ok entries ∧
        List.Forall₂
          (fun (p : String × Schema) (e : String × JSValue) =>
            e.1 = p.1 ∧ p.2.safeParse (getField fields p.1) = .ok e.2)
          shape entries
  | [], _ => ⟨[], rfl, List.Forall₂.nil⟩
  | (k, s) :: shape, hall => by
    obtain ⟨v, hv⟩ := hall (k, s) (by simp)
    have hv2 : s.safeParse (getField fields k) = .ok v := hv
    obtain ⟨entries, hgo, hfa⟩ := objectGo_ok fields shape
      (fun p hp => hall p (by simp [hp]))
    exact ⟨(k, v) :: entries, by rw [objectGo, hv2, hgo],
      List.Forall₂.cons ⟨rfl, hv⟩ hfa⟩

theorem objectGo_err_ne_nil :
    ∀ (shape : List (String × Schema)),
      (∀ p ∈ shape, ∀ inp iss, p.2.safeParse inp = .err iss → iss ≠ []) →
      ∀ (fields : List (String × JSValue)) (iss : List Issue),
        objectGo shape fields = .err iss → iss ≠ []
  | [], _, fields, iss, h => by simp [objectGo] at h
  | (k, s) :: shape, hs, fields, iss, h => by
    cases hk : s.safeParse (getField fields k) with
    | err childIss =>
      rw [objectGo, hk] at h
      cases h
      exact prependKeyToIssues_ne_nil _ _
        (hs (k, s) (by simp) (getField fields k) childIss hk)
    | ok v =>
      rw [objectGo, hk] at h
      cases hgo : objectGo shape fields with
      | err iss2 =>
        rw [hgo] at h
        cases h
        exact objectGo_err_ne_nil shape
          (fun p hp => hs p (by simp [hp])) fields iss hgo
      | ok entries => rw [hgo] at h; cases h

theorem objectGo_err_paths :
    ∀ (shape : List (String × Schema)) (fields : List (String × JSValue))
      (iss : List Issue),
      objectGo shape fields = .err iss →
      ∀ issue ∈ iss, ∃ p, issue.path = some p
  | [], fields, iss, h => by simp [objectGo] at h
  | (k, s) :: shape, fields, iss, h => by
    cases hk : s.safeParse (getField fields k) with
    | err childIss =>
      rw [objectGo, hk] at h
      cases h
      exact prependKeyToIssues_path _ _
    | ok v =>
      rw [objectGo, hk] at h
      cases hgo : objectGo shape fields with
      | err iss2 =>
        rw [hgo] at h
        cases h
        exact objectGo_err_paths shape fields iss hgo
      | ok entries => rw [hgo] at h; cases h

/-! ### Non-emptiness of every issue list a constructor can produce -/

theorem stringCheck_wf (m : String) (input : JSValue) (iss : List Issue)
    (h : stringCheck m input = .err iss) : iss ≠ [] := by
  cases input <;> cases h <;> simp

theorem numberCheck_wf (m : String) (input : JSValue) (iss : List Issue)
    (h : numberCheck m input = .err iss) : iss ≠ [] := by
  cases input
  case vNum n => cases n <;> cases h <;> simp
  all_goals (cases h; simp)

theorem booleanCheck_wf (m : String) (input : JSValue) (iss : List Issue)
    (h : booleanCheck m input = .err iss) : iss ≠ [] := by
  cases input <;> cases h <;> simp

theorem literalCheck_wf (value : JSValue) (m : String) (input : JSValue)
    (iss : List Issue) (h : literalCheck value m input = .err iss) : iss ≠ [] := by
  rw [literalCheck] at h
  split at h
  · cases h
  · cases h; simp

theorem maybeCheck_wf (s : Schema)
    (hs : ∀ inp iss, s.safeParse inp = .err iss → iss ≠ [])
    (input : JSValue) (iss : List Issue)
    (h : maybeCheck s input = .err iss) : iss ≠ [] := by
  cases input
  case vNull => cases h
  case vUndefined => cases h
  all_goals exact hs _ _ h

theorem defaultedCheck_wf (s : Schema)
    (hs : ∀ inp iss, s.safeParse inp = .err iss → iss ≠ [])
    (d : JSValue) (input : JSValue) (iss : List Issue)
    (h : defaultedCheck s d input = .err iss) : iss ≠ [] := by
  cases input
  case vNull => cases h
  case vUndefined => cases h
  all_goals exact hs _ _ h

theorem arrayCheck_wf (s : Schema)
    (hs : ∀ inp iss, s.safeParse inp = .err iss → iss ≠ [])
    (m : String) (input : JSValue) (iss : List Issue)
    (h : arrayCheck s m input = .err iss) : iss ≠ [] := by
  cases input
  case vArr elems =>
    rw [arrayCheck] at h
    cases hgo : arrayGo s 0 elems with
    | err iss2 =>
      rw [hgo] at h
      cases h
      exact arrayGo_err_ne_nil s hs elems 0 iss hgo
    | ok vs => rw [hgo] at h; cases h
  all_goals (cases h; simp)

theorem objectCheck_wf (shape : List (String × Schema))
    (hs : ∀ p ∈ shape, ∀ inp iss, p.2.safeParse inp = .err iss → iss ≠ [])
    (m : String) (input : JSValue) (iss : List Issue)
    (h : objectCheck shape m input = .err iss) : iss ≠ [] := by
  rw [objectCheck] at h
  split at h
  · cases hgo : objectGo shape (objFields input) with
    | err iss2 =>
      rw [hgo] at h
      cases h
      exact objectGo_err_ne_nil shape hs _ iss hgo
    | ok entries => rw [hgo] at h; cases h
  · cases h; simp

mutual

theorem denote_wf : ∀ (e : SchemaExpr) (input : JSValue) (iss : List Issue),
    (denote e).safeParse input = .err iss → iss ≠ []
  | .strE m, input, iss, h => stringCheck_wf m input iss h
  | .numE m, input, iss, h => numberCheck_wf m input iss h
  | .boolE m, input, iss, h => booleanCheck_wf m input iss h
  | .litE v m, input, iss, h => literalCheck_wf v m input iss h
  | .arrE e m, input, iss, h =>
    arrayCheck_wf (denote e) (denote_wf e) m input iss h
  | .objE sh m, input, iss, h =>
    objectCheck_wf (denoteShape sh) (denoteShape_wf sh) m input iss h
  | .maybeE e, input, iss, h =>
    maybeCheck_wf (denote e) (denote_wf e) input iss h
  | .defaultedE e d, input, iss, h =>
    defaultedCheck_wf (denote e) (denote_wf e) d input iss h

theorem denoteShape_wf : ∀ (sh : ShapeExpr) (p : String × Schema),
    p ∈ denoteShape sh →
    ∀ (inp : JSValue) (iss : List Issue), p.2.safeParse inp = .err iss → iss ≠ []
  | .nilS, p, hp => by simp [denoteShape] at hp
  | .consS k e rest, p, hp => by
    rw [denoteShape] at hp
    rcases List.mem_cons.mp hp with heq | hmem
    · subst heq
      exact fun inp iss h => denote_wf e inp iss h
    · exact denoteShape_wf rest p hmem

end

theorem denote_parse (e : SchemaExpr) (input : JSValue) :
    (denote e).parse input =
      match (denote e).safeParse input with
      | .err issues => .error { issues := issues }
      | .ok v => .ok v := by
  cases e <;> rfl

/-! ### Claim theorems -/

/-- Claim C1: for every schema built from the construction API and every
input, `safeParse` never throws — it returns either a success value or a
non-empty issue list — and `parse` returns exactly the success value
when `safeParse` has no issues and otherwise throws a `SchemaError`
(modelled as the `Except.error` branch) whose `issues` field is exactly
the list `safeParse` returned, with no issue lost, reordered, or
transformed. -/
theorem claim_C1_safeParse_total_parse_exact (e : SchemaExpr) (input : JSValue) :
    (∃ v, (denote e).safeParse input = .ok v ∧ (denote e).parse input = .ok v) ∨
    (∃ issues, issues ≠ [] ∧ (denote e).safeParse input = .err issues ∧
      (denote e).parse input = .error { issues := issues }) := by
  cases hr : (denote e).safeParse input with
  | ok v => exact .inl ⟨v, rfl, by rw [denote_parse, hr]⟩
  | err issues =>
    exact .inr ⟨issues, denote_wf e input issues hr, rfl, by rw [denote_parse, hr]⟩

/-- Claim C2: path segments are prepended, never appended, as failures
bubble from inner to outer validators, so the final path reads
root-to-leaf: `prependKeyToIssues` puts the new segment at the head of
every path; both `array` and `object` relocate a failing child's issues
exactly that way; and `array(object({age: number()}))` applied to
`[{age: 1}, {age: "x"}]` yields exactly one issue with path
`[1, "age"]`. -/
theorem claim_C2_path_prepend_root_to_leaf :
    (∀ (k : PathKey) (issues : List Issue),
      prependKeyToIssues k issues =
        issues.map fun issue =>
          { message := issue.message, path := some (k :: issue.path.getD []) }) ∧
    (∀ (s : Schema) (m : String) (pre : List JSValue) (x : JSValue)
        (rest : List JSValue) (issues : List Issue),
      (∀ y ∈ pre, ∃ v, s.safeParse y = .ok v) →
      s.safeParse x = .err issues →
      (array s m).safeParse (.vArr (pre ++ x :: rest)) =
        .err (prependKeyToIssues (.idx pre.length) issues)) ∧
    (∀ (fields : List (String × JSValue)) (k : String) (s : Schema)
        (m : String) (pre rest : List (String × Schema)) (issues : List Issue)
        (proto : Proto),
      isObject (.vObj proto fields) = true →
      (∀ p ∈ pre, ∃ v, p.2.safeParse (getField fields p.1) = .ok v) →
      s.safeParse (getField fields k) = .err issues →
      (object (pre ++ (k, s) :: rest) m).safeParse (.vObj proto fields) =
        .err (prependKeyToIssues (.key k) issues)) ∧
    ((array (object [("age", number "Expected number")] "Expected object")
        "Expected array").safeParse
      (.vArr [.vObj .protoObject [("age", .vNum (.finite 1))],
        .vObj .protoObject [("age", .vStr "x")]]) =
      .err [{ message := "Expected number", path := some [.idx 1, .key "age"] }]) := by
  refine ⟨?_, ?_, ?_, rfl⟩
  · intro k issues
    induction issues with
    | nil => rfl
    | cons issue rest ih =>
      simp only [prependKeyToIssues] at ih ⊢
      rw [List.map_cons, List.map_cons, ih]
      congr 1
      cases hp : issue.path <;> simp [hp]
  · intro s m pre x rest issues hpre hx
    have hgo := arrayGo_append_err s x issues hx pre 0 hpre rest
    rw [Nat.zero_add] at hgo
    show arrayCheck s m (.vArr (pre ++ x :: rest)) = _
    rw [arrayCheck, hgo]
  · intro fields k s m pre rest issues proto hobj hpre hk
    have hgo := objectGo_append_err fields k s issues hk pre hpre rest
    show objectCheck (pre ++ (k, s) :: rest) m (.vObj proto fields) = _
    rw [objectCheck, if_pos hobj]
    simp only [objFields]
    rw [hgo]

theorem claim_C2_witness :
    (array (string "Expected string") "Expected array").safeParse
      (.vArr [.vNum (.finite 5)]) =
      .err [{ message := "Expected string", path := some [.idx 0] }] :=
  claim_C2_path_prepend_root_to_leaf.2.1 (string "Expected string")
    "Expected array" [] (.vNum (.finite 5)) [] _ (by simp) rfl

/-- Claim C3: `array(s)` rejects non-array input with a single path-less
issue; otherwise it validates elements in index order and, for the first
failing index, returns exactly that child's issues with the index
prepended to each path, independently of everything after that index
(short-circuit); if every element validates it returns a fresh array of
the same length holding the child-validated values in order.  In
particular `array(number())` on `[1, "x", w]` yields exactly
`{ message: "Expected number", path: [1] }` for every third element `w`,
so index 2 is never evaluated. -/
theorem claim_C3_array_first_failure_short_circuit :
    (∀ (s : Schema) (m : String) (input : JSValue),
      (∀ l, input ≠ .vArr l) →
      (array s m).safeParse input = .err [{ message := m, path := none }]) ∧
    (∀ (s : Schema) (m : String) (pre : List JSValue) (x : JSValue)
        (rest : List JSValue) (issues : List Issue),
      (∀ y ∈ pre, ∃ v, s.safeParse y = .ok v) →
      s.safeParse x = .err issues →
      (array s m).safeParse (.vArr (pre ++ x :: rest)) =
        .err (prependKeyToIssues (.idx pre.length) issues)) ∧
    (∀ (s : Schema) (m : String) (elems : List JSValue),
      (∀ y ∈ elems, ∃ v, s.safeParse y = .ok v) →
      ∃ vs, (array s m).safeParse (.vArr elems) = .ok (.vArr vs) ∧
        vs.length = elems.length ∧
        List.Forall₂ (fun x v => s.safeParse x = .ok v) elems vs) ∧
    (∀ w : JSValue,
      (array (number "Expected number") "Expected array").safeParse
        (.vArr [.vNum (.finite 1), .vStr "x", w]) =
        .err [{ message := "Expected number", path := some [.idx 1] }]) := by
  refine ⟨?_, ?_, ?_, fun w => rfl⟩
  · intro s m input hna
    cases input
    case vArr l => exact absurd rfl (hna l)
    all_goals rfl
  · intro s m pre x rest issues hpre hx
    have hgo := arrayGo_append_err s x issues hx pre 0 hpre rest
    rw [Nat.zero_add] at hgo
    show arrayCheck s m (.vArr (pre ++ x :: rest)) = _
    rw [arrayCheck, hgo]
  · intro s m elems hall
    obtain ⟨vs, hgo, hfa⟩ := arrayGo_ok s elems 0 hall
    refine ⟨vs, ?_, hfa.length_eq.symm, hfa⟩
    show arrayCheck s m (.vArr elems) = _
    rw [arrayCheck, hgo]

theorem claim_C3_witness :
    (array (number "Expected number") "Expected array").safeParse (.vStr "e") =
      .err [{ message := "Expected array", path := none }] :=
  claim_C3_array_first_failure_short_circuit.1 (number "Expected number")
    "Expected array" (.vStr "e") (fun l => by simp)

/-- Claim C4: on a plain-object input, `object(shape)` validates the
declared fields in shape-definition order against `input[key]`
(`undefined` when the key is absent); the first failing field's issues
are returned with the field name prepended, independently of every later
field (short-circuit); on success the result is a newly allocated
null-prototype record holding exactly the declared fields bound to their
child-validated values, so extra input fields are excluded. -/
theorem claim_C4_object_field_order_and_allow_list :
    (∀ (fields : List (String × JSValue)) (k : String) (s : Schema)
        (m : String) (pre rest : List (String × Schema)) (issues : List Issue)
        (proto : Proto),
      isObject (.vObj proto fields) = true →
      (∀ p ∈ pre, ∃ v, p.2.safeParse (getField fields p.1) = .ok v) →
      s.safeParse (getField fields k) = .err issues →
      (object (pre ++ (k, s) :: rest) m).safeParse (.vObj proto fields) =
        .err (prependKeyToIssues (.key k) issues)) ∧
    (∀ (shape : List (String × Schema)) (m : String) (proto : Proto)
        (fields : List (String × JSValue)),
      isObject (.vObj proto fields) = true →
      (∀ p ∈ shape, ∃ v, p.2.safeParse (getField fields p.1) = .ok v) →
      ∃ entries,
        (object shape m).safeParse (.vObj proto fields) =
          .ok (.vObj .protoNull entries) ∧
        entries.length = shape.length ∧
        List.Forall₂
          (fun (p : String × Schema) (e : String × JSValue) =>
            e.1 = p.1 ∧ p.2.safeParse (getField fields p.1) = .ok e.2)
          shape entries) ∧
    (∀ (fields : List (String × JSValue)) (key : String),
      (∀ p ∈ fields, p.1 ≠ key) → getField fields key = .vUndefined) := by
  refine ⟨?_, ?_, ?_⟩
  · intro fields k s m pre rest issues proto hobj hpre hk
    have hgo := objectGo_append_err fields k s issues hk pre hpre rest
    show objectCheck (pre ++ (k, s) :: rest) m (.vObj proto fields) = _
    rw [objectCheck, if_pos hobj]
    simp only [objFields]
    rw [hgo]
  · intro shape m proto fields hobj hall
    obtain ⟨entries, hgo, hfa⟩ := objectGo_ok fields shape hall
    refine ⟨entries, ?_, hfa.length_eq.symm, hfa⟩
    show objectCheck shape m (.vObj proto fields) = _
    rw [objectCheck, if_pos hobj]
    simp only [objFields]
    rw [hgo]
  · intro fields key hnone
    rw [getField]
    have hfind : fields.find? (fun p => p.1 == key) = none := by
      rw [List.find?_eq_none]
      intro p hp
      simpa using hnone p hp
    rw [hfind]

theorem claim_C4_witness :
    (object [("age", number "Expected number")] "Expected object").safeParse
      (.vObj .protoObject [("age", .vStr "x")]) =
      .err [{ message := "Expected number", path := some [.key "age"] }] :=
  claim_C4_object_field_order_and_allow_list.1 [("age", .vStr "x")] "age"
    (number "Expected number") "Expected object" [] [] _ .protoObject rfl
    (by simp) rfl

/-- Claim C5: `object(shape)` returns a single path-less issue carrying
the constructor's message exactly when the input is not a plain data
object — null, undefined, a primitive (strings included), an array, or
an object whose prototype is neither null nor the base object
prototype — while null-prototype and base-prototype objects proceed to
field validation. -/
theorem claim_C5_plain_object_guard (shape : List (String × Schema))
    (m : String) (input : JSValue) :
    ((object shape m).safeParse input = .err [{ message := m, path := none }] ↔
      isObject input = false) ∧
    (isObject input = false ↔
      (input = .vNull ∨ input = .vUndefined ∨ (∃ s, input = .vStr s) ∨
        (∃ n, input = .vNum n) ∨ (∃ b, input = .vBool b) ∨
        (∃ l, input = .vArr l) ∨ (∃ f, input = .vObj .protoOther f))) := by
  constructor
  · constructor
    · intro h
      by_contra hobj
      rw [Bool.not_eq_false] at hobj
      have h2 : objectCheck shape m input = .err [{ message := m, path := none }] := h
      rw [objectCheck, if_pos hobj] at h2
      cases hgo : objectGo shape (objFields input) with
      | err iss =>
        rw [hgo] at h2
        cases h2
        obtain ⟨p, hp⟩ := objectGo_err_paths shape (objFields input) _ hgo
          { message := m, path := none } (by simp)
        cases hp
      | ok entries => rw [hgo] at h2; cases h2
    · intro h
      show objectCheck shape m input = _
      rw [objectCheck, if_neg (by simp [h])]
  · cases input with
    | vObj proto fields => cases proto <;> simp [isObject]
    | vNull => simp [isObject]
    | vUndefined => simp [isObject]
    | vStr s => simp [isObject]
    | vNum n => simp [isObject]
    | vBool b => simp [isObject]
    | vArr l => simp [isObject]

theorem claim_C5_witness :
    (object [] "Expected object").safeParse (.vArr []) =
      .err [{ message := "Expected object", path := none }] :=
  (claim_C5_plain_object_guard [] "Expected object" (.vArr [])).1.mpr rfl

/-- Claim C6: `literal(value, message)` succeeds, returning the input,
exactly when the input is strictly equal to `value` (for `value` a
string, number, boolean, or null), and returns a single path-less issue
carrying `message` otherwise; in particular `literal(null, m)` succeeds
only on null itself, failing on undefined, `0`, the empty string, and
`false`. -/
theorem claim_C6_literal_strict_equality :
    (∀ (value : JSValue) (m : String) (input : JSValue),
      isLitTarget value = true →
      (((literal value m).safeParse input = .ok input) ↔
        strictEq input value = true) ∧
      (strictEq input value = false →
        (literal value m).safeParse input =
          .err [{ message := m, path := none }])) ∧
    (∀ m : String,
      (literal .vNull m).safeParse .vNull = .ok .vNull ∧
      (literal .vNull m).safeParse .vUndefined =
        .err [{ message := m, path := none }] ∧
      (literal .vNull m).safeParse (.vNum (.finite 0)) =
        .err [{ message := m, path := none }] ∧
      (literal .vNull m).safeParse (.vStr "") =
        .err [{ message := m, path := none }] ∧
      (literal .vNull m).safeParse (.vBool false) =
        .err [{ message := m, path := none }]) := by
  constructor
  · intro value m input _
    constructor
    · constructor
      · intro h
        by_contra hne
        rw [Bool.not_eq_true] at hne
        have h2 : literalCheck value m input = .ok input := h
        rw [literalCheck, if_neg (by simp [hne])] at h2
        cases h2
      · intro heq
        show literalCheck value m input = _
        rw [literalCheck, if_pos heq]
    · intro hne
      show literalCheck value m input = _
      rw [literalCheck, if_neg (by simp [hne])]
  · intro m
    exact ⟨rfl, rfl, rfl, rfl, rfl⟩

theorem claim_C6_witness :
    (literal .vNull "Expected null").safeParse .vUndefined =
      .err [{ message := "Expected null", path := none }] :=
  ((claim_C6_literal_strict_equality.1 .vNull "Expected null" .vUndefined rfl).2) rfl

/-- Claim C7: `maybe(s)` maps both null and undefined to success with
value `undefined` (never null) and `defaulted(s, d)` maps both to
success with value `d`; on every other input both return exactly
`s.safeParse` applied to that input, success value or issues and paths
unchanged. -/
theorem claim_C7_maybe_defaulted_absent_normalization (s : Schema)
    (d : JSValue) (input : JSValue) :
    (maybe s).safeParse .vNull = .ok .vUndefined ∧
    (maybe s).safeParse .vUndefined = .ok .vUndefined ∧
    (defaulted s d).safeParse .vNull = .ok d ∧
    (defaulted s d).safeParse .vUndefined = .ok d ∧
    (input ≠ .vNull → input ≠ .vUndefined →
      (maybe s).safeParse input = s.safeParse input ∧
      (defaulted s d).safeParse input = s.safeParse input) := by
  refine ⟨rfl, rfl, rfl, rfl, fun h1 h2 => ?_⟩
  cases input
  case vNull => exact absurd rfl h1
  case vUndefined => exact absurd rfl h2
  all_goals exact ⟨rfl, rfl⟩

theorem claim_C7_witness :
    (maybe (number "Expected number")).safeParse (.vStr "q") =
      (number "Expected number").safeParse (.vStr "q") ∧
    (defaulted (number "Expected number") (.vNum (.finite 42))).safeParse
      (.vStr "q") = (number "Expected number").safeParse (.vStr "q") :=
  (claim_C7_maybe_defaulted_absent_normalization (number "Expected number")
    (.vNum (.finite 42)) (.vStr "q")).2.2.2.2 (by simp) (by simp)

/-- Claim C8: each of `string()`, `number()`, `boolean()` succeeds,
returning the input unchanged, exactly when the input has the matching
runtime kind, with `number()` additionally requiring finiteness
(rejecting NaN and both infinities although their runtime kind is
number); every other input yields exactly one path-less issue carrying
the constructor's message. -/
theorem claim_C8_primitive_validators :
    (∀ (m s : String), (string m).safeParse (.vStr s) = .ok (.vStr s)) ∧
    (∀ (m : String) (input : JSValue), (∀ s, input ≠ .vStr s) →
      (string m).safeParse input = .err [{ message := m, path := none }]) ∧
    (∀ (m : String) (q : Rat),
      (number m).safeParse (.vNum (.finite q)) = .ok (.vNum (.finite q))) ∧
    (∀ m : String,
      (number m).safeParse (.vNum .nan) =
        .err [{ message := m, path := none }] ∧
      (number m).safeParse (.vNum .posInf) =
        .err [{ message := m, path := none }] ∧
      (number m).safeParse (.vNum .negInf) =
        .err [{ message := m, path := none }]) ∧
    (∀ (m : String) (input : JSValue), (∀ n, input ≠ .vNum n) →
      (number m).safeParse input = .err [{ message := m, path := none }]) ∧
    (∀ (m : String) (b : Bool), (boolean m).safeParse (.vBool b) = .ok (.vBool b)) ∧
    (∀ (m : String) (input : JSValue), (∀ b, input ≠ .vBool b) →
      (boolean m).safeParse input = .err [{ message := m, path := none }]) := by
  refine ⟨fun m s => rfl, ?_, fun m q => rfl, fun m => ⟨rfl, rfl, rfl⟩, ?_, fun m b => rfl, ?_⟩
  · intro m input hns
    cases input
    case vStr s => exact absurd rfl (hns s)
    all_goals rfl
  · intro m input hnn
    cases input
    case vNum n => exact absurd rfl (hnn n)
    all_goals rfl
  · intro m input hnb
    cases input
    case vBool b => exact absurd rfl (hnb b)
    all_goals rfl

theorem claim_C8_witness :
    (string "Expected string").safeParse .vNull =
      .err [{ message := "Expected string", path := none }] :=
  claim_C8_primitive_validators.2.1 "Expected string" .vNull (fun s => by simp)

/-- Claim C9: every schema produced by any constructor of the API
exposes under the reserved interop property a `validate` function whose
result equals `safeParse` on the same input, the fixed vendor string
`"razr"`, and version `1`. -/
theorem claim_C9_standard_interop_marker (e : SchemaExpr) (input : JSValue) :
    (denote e).standard.validate input = (denote e).safeParse input ∧
    (denote e).standard.vendor = "razr" ∧
    (denote e).standard.version = 1 := by
  cases e <;> exact ⟨rfl, rfl, rfl⟩

/-- Claim C10: `defaulted(s, d)` on null or undefined returns success
with exactly `d` for every child schema `s` — in particular also when
`s` itself rejects `d`, since the default value is never validated
against the child schema (witnessed concretely by a string default under
a number child). -/
theorem claim_C10_default_value_not_validated :
    (∀ (s : Schema) (d : JSValue),
      (defaulted s d).safeParse .vNull = .ok d ∧
      (defaulted s d).safeParse .vUndefined = .ok d) ∧
    (∀ (s : Schema) (d : JSValue) (issues : List Issue),
      s.safeParse d = .err issues →
      (defaulted s d).safeParse .vNull = .ok d ∧
      (defaulted s d).safeParse .vUndefined = .ok d) ∧
    ((number "Expected number").safeParse (.vStr "oops") =
      .err [{ message := "Expected number", path := none }] ∧
    (defaulted (number "Expected number") (.vStr "oops")).safeParse .vNull =
      .ok (.vStr "oops") ∧
    (defaulted (number "Expected number") (.vStr "oops")).safeParse .vUndefined =
      .ok (.vStr "oops")) :=
  ⟨fun _ _ => ⟨rfl, rfl⟩, fun _ _ _ _ => ⟨rfl, rfl⟩, rfl, rfl, rfl⟩

theorem claim_C10_witness :
    (defaulted (string "Expected string") (.vNum .nan)).safeParse .vNull =
      .ok (.vNum .nan) ∧
    (defaulted (string "Expected string") (.vNum .nan)).safeParse .vUndefined =
      .ok (.vNum .nan) :=
  claim_C10_default_value_not_validated.2.1 (string "Expected string")
    (.vNum .nan) [{ message := "Expected string", path := none }] rfl

end Razr
